import Mathlib

/-!
# Verification of `jira_board_to_sql.py`

A shallow embedding of the repository's single sync script
(`src/jira_board_to_sql.py`) together with proofs about its behaviour.

Modelling conventions:
* Python `str | None` values become `Option String`; Python truthiness of such
  a value (`if not value`) becomes `pyTruthy`.
* JSON objects fetched from Jira become Lean structures whose fields are
  `Option`-valued exactly where the script uses `dict.get` (absent keys and
  explicit `null` both map to `none`, matching `get`'s behaviour).
* Exceptions become `Except`/`Option` results; the error payloads record the
  information the Python exception message carries.
* The destination SQL tables become Lean lists of row structures; a `MERGE`
  statement becomes a pure function on such a list.
* The process run (`main`) becomes a function that, besides its result, emits
  the ordered list of external events (HTTP requests, database operations) the
  script would perform, so that ordering claims ("before any network
  activity") are statable.
-/

/-- Python truthiness of a `str | None` value: `None` and `""` are falsy,
every other string is truthy.  This models the `if not value:` test in
`require_env`. -/
def pyTruthy : Option String → Bool
  | none => false
  | some s => !(s = "")

/-- The error kinds the script can raise before reaching the database layer:
`require_env` raises `ValueError(f"Missing required environment variable:
{name}")`, and `r.raise_for_status()` raises an HTTP error carrying the
response status. -/
inductive PyErr where
  /-- `ValueError` from `require_env`, carrying the missing variable's name. -/
  | missingEnv (name : String)
  /-- `requests.HTTPError` from `raise_for_status`, carrying the status code. -/
  | httpError (status : Nat)
  deriving DecidableEq, Repr

/-- `require_env(name, value)`: raise when the value is absent or empty. -/
def require_env (name : String) (value : Option String) : Except PyErr Unit :=
  if pyTruthy value then .ok () else .error (.missingEnv name)

/-! ## Timestamps: `to_dt` and `datetime.fromisoformat` -/

/-- The value produced by Python's `datetime.fromisoformat`: a naive or
offset-aware timestamp.  `tzOffsetMinutes = none` models a naive datetime. -/
structure PyDateTime where
  year : Nat
  month : Nat
  day : Nat
  hour : Nat
  minute : Nat
  second : Nat
  microsecond : Nat
  tzOffsetMinutes : Option Int
  deriving DecidableEq, Repr

/-- Numeric value of a decimal digit character, `none` otherwise. -/
def digitVal (c : Char) : Option Nat :=
  if c.isDigit then some (c.toNat - 48) else none

/-- Read exactly `n` decimal digits, most significant first, accumulating
into `acc`; fails if a non-digit (or the end of input) is hit first. -/
def readDigits : Nat → Nat → List Char → Option (Nat × List Char)
  | 0, acc, cs => some (acc, cs)
  | n + 1, acc, c :: cs =>
    match digitVal c with
    | some d => readDigits n (acc * 10 + d) cs
    | none => none
  | _ + 1, _, [] => none

/-- Consume one expected character. -/
def expectChar (c : Char) : List Char → Option (List Char)
  | c' :: cs => if c' = c then some cs else none
  | [] => none

/-- Gregorian leap year test, as used by `datetime`'s validity checks. -/
def isLeap (y : Nat) : Bool :=
  y % 4 = 0 && (!(y % 100 = 0) || y % 400 = 0)

/-- Number of days in a month, for `datetime`'s day-of-month validation. -/
def daysInMonth (y m : Nat) : Nat :=
  if m = 2 then (if isLeap y then 29 else 28)
  else if m = 4 ∨ m = 6 ∨ m = 9 ∨ m = 11 then 30
  else 31

/-- Microseconds denoted by a fractional-seconds digit string: 1 to 6 digits,
scaled to microseconds (e.g. `.123` is 123000 µs). -/
def fracMicros (ds : List Char) : Option Nat :=
  if ds.length = 0 ∨ 6 < ds.length then none
  else some ((ds.foldl (fun a c => a * 10 + (c.toNat - 48)) 0) * 10 ^ (6 - ds.length))

/-- Parse the time-of-day portion `HH[:MM[:SS[.ffffff]]]`, returning
`(hour, minute, second, microsecond, rest)`. -/
def parseTimeAndFrac (cs : List Char) : Option (Nat × Nat × Nat × Nat × List Char) := do
  let (h, cs1) ← readDigits 2 0 cs
  if 23 < h then none else
  match cs1 with
  | ':' :: cs2 => do
    let (mi, cs3) ← readDigits 2 0 cs2
    if 59 < mi then none else
    match cs3 with
    | ':' :: cs4 => do
      let (se, cs5) ← readDigits 2 0 cs4
      if 59 < se then none else
      match cs5 with
      | '.' :: cs6 =>
        match fracMicros (cs6.takeWhile (·.isDigit)) with
        | some us => some (h, mi, se, us, cs6.dropWhile (·.isDigit))
        | none => none
      | _ => some (h, mi, se, 0, cs5)
    | _ => some (h, mi, 0, 0, cs3)
  | _ => some (h, 0, 0, 0, cs1)

/-- Parse an optional trailing UTC offset `±HH:MM`; no offset yields a naive
result.  Anything else is left for the caller, which then rejects trailing
garbage. -/
def parseOffsetPart (cs : List Char) : Option (Option Int × List Char) :=
  match cs with
  | [] => some (none, [])
  | c :: cs1 =>
    if c = '+' ∨ c = '-' then do
      let (oh, cs2) ← readDigits 2 0 cs1
      let cs3 ← expectChar ':' cs2
      let (om, cs4) ← readDigits 2 0 cs3
      if 23 < oh ∨ 59 < om then none
      else
        let total : Int := (oh * 60 + om : Nat)
        some (some (if c = '-' then -total else total), cs4)
    else some (none, cs)

/-- Model of Python's `datetime.fromisoformat` on the formats relevant to the
script: `YYYY-MM-DD[<sep>HH[:MM[:SS[.ffffff]]]][±HH:MM]` with separator `T`
or space, and full date/time validity checks.  A parse failure is `none`
(the script converts the raised `ValueError` to `None` itself). -/
def pyFromIsoformat (s : String) : Option PyDateTime := do
  let cs := s.toList
  let (y, cs1) ← readDigits 4 0 cs
  let cs2 ← expectChar '-' cs1
  let (mo, cs3) ← readDigits 2 0 cs2
  let cs4 ← expectChar '-' cs3
  let (d, cs5) ← readDigits 2 0 cs4
  if y < 1 ∨ mo < 1 ∨ 12 < mo ∨ d < 1 ∨ daysInMonth y mo < d then none
  else
    match cs5 with
    | [] => some ⟨y, mo, d, 0, 0, 0, 0, none⟩
    | sep :: rest =>
      if sep = 'T' ∨ sep = ' ' then do
        let (h, mi, se, us, cs6) ← parseTimeAndFrac rest
        let (off, cs7) ← parseOffsetPart cs6
        if cs7.isEmpty then some ⟨y, mo, d, h, mi, se, us, off⟩ else none
      else none

/-- `s.replace("Z", "+00:00")`: replace every occurrence of the one-character
pattern `"Z"`. -/
def replaceZchars : List Char → List Char
  | [] => []
  | c :: cs =>
    if c = 'Z' then '+' :: '0' :: '0' :: ':' :: '0' :: '0' :: replaceZchars cs
    else c :: replaceZchars cs

/-- `s.replace("Z", "+00:00")` on strings. -/
def replaceZ (s : String) : String :=
  String.mk (replaceZchars s.toList)

/-- `to_dt(s)`: `None` for a falsy input, otherwise
`datetime.fromisoformat(s.replace("Z", "+00:00"))` with every parse error
swallowed into `None`. -/
def to_dt : Option String → Option PyDateTime
  | none => none
  | some s => if s = "" then none else pyFromIsoformat (replaceZ s)

example : to_dt (some "2026-02-07T10:22:33Z") =
    some ⟨2026, 2, 7, 10, 22, 33, 0, some 0⟩ := by decide
example : to_dt (some "2026-02-07T10:22:33.123+05:30") =
    some ⟨2026, 2, 7, 10, 22, 33, 123000, some 330⟩ := by decide
example : to_dt (some "garbage") = none := by decide
example : to_dt (some "2026-02-30T00:00:00Z") = none := by decide

/-! ## The JSON payloads the script reads -/

/-- A status object inside a board configuration or `fields.status`:
`{"id": ..., "name": ...}`.  Jira's ids are numeric; `st.get("id")` may be
absent, hence `Option`. -/
structure StatusJson where
  id : Option Int
  name : Option String
  deriving DecidableEq, Repr

/-- One entry of `cfg["columnConfig"]["columns"]`: a column name plus its
list of statuses. -/
structure ColumnJson where
  name : Option String
  statuses : List StatusJson
  deriving DecidableEq, Repr

/-- The board-configuration response, reduced to the part the script reads:
`cfg.get("columnConfig", {}).get("columns", [])` (absent layers yield the
empty list). -/
structure ConfigResp where
  columns : List ColumnJson
  deriving DecidableEq, Repr

/-- `fields.assignee`: only `displayName` is read. -/
structure AssigneeJson where
  displayName : Option String
  deriving DecidableEq, Repr

/-- The `fields` object of an issue, reduced to the keys the script reads. -/
structure FieldsJson where
  summary : Option String
  status : Option StatusJson
  assignee : Option AssigneeJson
  duedate : Option String
  created : Option String
  updated : Option String
  deriving DecidableEq, Repr

/-- An element of the `issues` array: `it.get("key")` and
`it.get("fields", {})`. -/
structure IssueJson where
  key : Option String
  fields : Option FieldsJson
  deriving DecidableEq, Repr

/-- One page of the board-issues endpoint: `data.get("issues", [])` (an
absent array behaves as the empty list) and `data.get("total", 0)` (an
absent total behaves as `0`, kept as `Option` to model absence).  The issue
payload type is a parameter: the loop in `get_board_issues` never inspects
the elements. -/
structure IssuePage (α : Type) where
  issues : List α
  total : Option Nat
  deriving DecidableEq, Repr

/-! ## `get_board_columns`: flatten the configuration -/

/-- Python `str(...)` applied to the result of `st.get("id")`: `str(None)`
is the string `"None"`. -/
def pyStrOptInt : Option Int → String
  | some n => toString n
  | none => "None"

/-- A record appended to `cols` by `get_board_columns`, and equally a row of
the destination table `dbo.JiraBoardColumns` (same four columns). -/
structure ColRecord where
  BoardId : Int
  ColumnName : Option String
  StatusId : String
  StatusName : Option String
  deriving DecidableEq, Repr

/-- The pure part of `get_board_columns`: one record per `(column, status)`
pair of the configuration, in iteration order. -/
def board_columns_records (boardId : Int) (cfg : ConfigResp) : List ColRecord :=
  (cfg.columns.map fun col =>
    col.statuses.map fun st =>
      { BoardId := boardId
        ColumnName := col.name
        StatusId := pyStrOptInt st.id
        StatusName := st.name }).flatten

/-! ## The `status_to_column` dict -/

/-- The `status_to_column` dictionary: string keys, values of type
`str | None` (a column with no `"name"` stores `None`). -/
abbrev Dict := List (String × Option String)

/-- Python dict assignment `d[k] = v`: overwrite the existing slot for `k`
if present (keys are unique), otherwise append a new entry. -/
def dictSet : Dict → String → Option String → Dict
  | [], k, v => [(k, v)]
  | p :: d, k, v => if p.1 = k then (k, v) :: d else p :: dictSet d k v

/-- Python `d.get(k)` distinguishing a hit from a miss: `some value` when the
key is present (the stored value may itself be `None`), `none` when absent. -/
def dictGet : Dict → String → Option (Option String)
  | [], _ => none
  | p :: d, k => if p.1 = k then some p.2 else dictGet d k

/-- The dict comprehension `{c["StatusId"]: c["ColumnName"] for c in cols}`:
insert the pairs left to right, later pairs overwriting earlier ones. -/
def dictOfPairs (ps : List (String × Option String)) : Dict :=
  ps.foldl (fun d p => dictSet d p.1 p.2) []

/-- `status_to_column` as built in `main` from the fetched records. -/
def status_to_column (cols : List ColRecord) : Dict :=
  dictOfPairs (cols.map fun c => (c.StatusId, c.ColumnName))

/-- `status_to_column.get(status_id)` where `status_id : str | None`: looking
up `None` misses (all keys are strings), and a miss returns `None`, which is
indistinguishable from a stored `None` value. -/
def dict_get_opt (d : Dict) (k : Option String) : Option String :=
  match k with
  | none => none
  | some s => (dictGet d s).join

/-! ## Row extraction (`upsert_issues` body) and the destination tables -/

/-- A row of the destination table `dbo.JiraIssuesBoard`, as bound by the
`MERGE` statement in `upsert_issues`. -/
structure IssueRow where
  BoardId : Int
  IssueKey : Option String
  Summary : Option String
  StatusId : Option String
  StatusName : Option String
  ColumnName : Option String
  Assignee : Option String
  DueDate : Option String
  Created : Option PyDateTime
  Updated : Option PyDateTime
  deriving DecidableEq, Repr

/-- The field extraction performed for each issue inside `upsert_issues`:
`key`, `fields` (default `{}`), `status or {}`, stringified status id,
assignee display name, verbatim due date, leniently parsed timestamps, and
the column name looked up in `status_to_column`. -/
def issueToRow (boardId : Int) (stc : Dict) (it : IssueJson) : IssueRow :=
  let f := it.fields.getD ⟨none, none, none, none, none, none⟩
  let status := f.status.getD ⟨none, none⟩
  let status_id : Option String := status.id.map (fun n => toString n)
  { BoardId := boardId
    IssueKey := it.key
    Summary := f.summary
    StatusId := status_id
    StatusName := status.name
    ColumnName := dict_get_opt stc status_id
    Assignee := (f.assignee.getD ⟨none⟩).displayName
    DueDate := f.duedate
    Created := to_dt f.created
    Updated := to_dt f.updated }

/-! ## `MERGE` upserts

Both `MERGE` statements match on a key, update every non-key column when
matched, and insert the full record otherwise.  `pyMerge` is the shared
shape; `upd` performs the `UPDATE SET` clause of the statement. -/

/-- One `MERGE ... WHEN MATCHED THEN UPDATE ... WHEN NOT MATCHED THEN
INSERT` execution against a table held as a list of rows: update every row
whose key matches (the tables keep keys unique, so at most one), else append
the new row. -/
def pyMerge {ρ κ : Type} [DecidableEq κ] (key : ρ → κ) (upd : ρ → ρ → ρ)
    (t : List ρ) (r : ρ) : List ρ :=
  if t.any fun x => decide (key x = key r) then
    t.map fun x => if key x = key r then upd x r else x
  else t ++ [r]

/-- A sequence of single-row `MERGE`s, one per source record, in order. -/
def pyUpsertAll {ρ κ : Type} [DecidableEq κ] (key : ρ → κ) (upd : ρ → ρ → ρ)
    (t : List ρ) (rs : List ρ) : List ρ :=
  rs.foldl (pyMerge key upd) t

/-- Key of `dbo.JiraBoardColumns`: `ON t.BoardId = s.BoardId AND t.StatusId
= s.StatusId`. -/
def keyCol (c : ColRecord) : Int × String := (c.BoardId, c.StatusId)

/-- `UPDATE SET ColumnName=?, StatusName=?` of the columns `MERGE`. -/
def updCol (x c : ColRecord) : ColRecord :=
  { x with ColumnName := c.ColumnName, StatusName := c.StatusName }

/-- One execution of the `MERGE dbo.JiraBoardColumns` statement. -/
def mergeColRow (t : List ColRecord) (c : ColRecord) : List ColRecord :=
  pyMerge keyCol updCol t c

/-- `upsert_columns(cur, cols)`: one `MERGE` per record, in order. -/
def upsert_columns (t : List ColRecord) (cols : List ColRecord) : List ColRecord :=
  cols.foldl mergeColRow t

/-- Key of `dbo.JiraIssuesBoard`: `ON t.BoardId=s.BoardId AND
t.IssueKey=s.IssueKey`. -/
def keyIssue (r : IssueRow) : Int × Option String := (r.BoardId, r.IssueKey)

/-- `UPDATE SET Summary=?, StatusId=?, StatusName=?, ColumnName=?,
Assignee=?, DueDate=?, Created=?, Updated=?` of the issues `MERGE`. -/
def updIssue (x r : IssueRow) : IssueRow :=
  { x with
    Summary := r.Summary, StatusId := r.StatusId, StatusName := r.StatusName,
    ColumnName := r.ColumnName, Assignee := r.Assignee, DueDate := r.DueDate,
    Created := r.Created, Updated := r.Updated }

/-- One execution of the `MERGE dbo.JiraIssuesBoard` statement. -/
def mergeIssueRow (t : List IssueRow) (r : IssueRow) : List IssueRow :=
  pyMerge keyIssue updIssue t r

/-- `upsert_issues(cur, issues, status_to_column)`: extract each issue's row
and `MERGE` it, in order. -/
def upsert_issues (boardId : Int) (t : List IssueRow) (issues : List IssueJson)
    (stc : Dict) : List IssueRow :=
  issues.foldl (fun tb it => mergeIssueRow tb (issueToRow boardId stc it)) t

/-! ## `get_board_issues`: the pagination loop

The loop ``while True: data = jira_get(...); chunk = data.get("issues", []);
if not chunk: break; issues.extend(chunk); start_at += len(chunk);
if start_at >= data.get("total", 0): break`` is embedded with a fuel
parameter (`none` = the fuel ran out before the loop finished).  Besides the
accumulated issues it returns the `(startAt, maxResults)` parameter pairs of
the HTTP requests it issued, in order; `max_results` is the constant `50`.
An HTTP failure (`raise_for_status`) aborts the loop, carrying the status. -/
def get_board_issues_loop {α : Type} (fetch : Nat → Except Nat (IssuePage α)) :
    Nat → Nat → List α → Option (List (Nat × Nat) × Except Nat (List α))
  | 0, _, _ => none
  | fuel + 1, start_at, issues =>
    match fetch start_at with
    | .error st => some ([(start_at, 50)], .error st)
    | .ok data =>
      if data.issues.isEmpty then some ([(start_at, 50)], .ok issues)
      else if data.total.getD 0 ≤ start_at + data.issues.length then
        some ([(start_at, 50)], .ok (issues ++ data.issues))
      else
        match get_board_issues_loop fetch fuel (start_at + data.issues.length)
            (issues ++ data.issues) with
        | none => none
        | some (reqs, res) => some ((start_at, 50) :: reqs, res)

/-- `get_board_issues()`: run the loop from `start_at = 0` with an empty
accumulator. -/
def get_board_issues_pure {α : Type} (fetch : Nat → Except Nat (IssuePage α))
    (fuel : Nat) : Option (List (Nat × Nat) × Except Nat (List α)) :=
  get_board_issues_loop fetch fuel 0 []

/-- A consistent ("faithful") upstream source holding the fixed issue list
`L`: every request succeeds, reports `total = L.length`, and returns the
window of at most 50 issues starting at the requested offset. -/
def pageFetch {α : Type} (L : List α) : Nat → Except Nat (IssuePage α) :=
  fun startAt => .ok { issues := (L.drop startAt).take 50, total := some L.length }

/-- The request parameters the loop sends against a faithful source holding
`total` issues: offsets `0, 50, 100, ...`, one request per page, and always
at least the initial request. -/
def expectedReqs (total : Nat) : List (Nat × Nat) :=
  (List.range (max 1 ((total + 49) / 50))).map (fun i => (i * 50, 50))

/-! ## Configuration, events and the orchestrator `main` -/

/-- The process environment, reduced to the variables the script reads.
Every field is the raw `os.getenv` result (`none` = unset). `BOARD_ID` is
kept as the parsed integer with its default `2`. -/
structure Env where
  jiraBaseUrl : Option String
  jiraEmail : Option String
  jiraApiToken : Option String
  boardId : Int
  sqlServer : Option String
  sqlDatabase : Option String
  sqlAuth : Option String
  sqlUsername : Option String
  sqlPassword : Option String
  deriving DecidableEq, Repr

/-- Python `str.lower()` (ASCII case folding, character-wise). -/
def pyLower (s : String) : String :=
  String.mk (s.toList.map Char.toLower)

/-- Python `str.rstrip("/")`: remove every trailing `'/'`. -/
def pyRstripSlash (s : String) : String :=
  String.mk ((s.toList.reverse.dropWhile (· = '/')).reverse)

/-- `JIRA_BASE_URL = os.getenv("JIRA_BASE_URL", "").rstrip("/")`. -/
def jiraBaseUrlVal (e : Env) : String :=
  pyRstripSlash (e.jiraBaseUrl.getD "")

/-- `SQL_DATABASE = os.getenv("SQL_DATABASE", "JiraReporting")` (the default
applies only when the variable is unset, not when it is set to `""`). -/
def sqlDatabaseVal (e : Env) : String :=
  e.sqlDatabase.getD "JiraReporting"

/-- `SQL_AUTH = os.getenv("SQL_AUTH", "windows").lower()`. -/
def sqlAuthVal (e : Env) : String :=
  pyLower (e.sqlAuth.getD "windows")

/-- An externally observable action of the run. -/
inductive Event where
  /-- One `requests.get` call: the URL and, for the issues endpoint, the
  `startAt`/`maxResults` parameters. -/
  | httpGet (url : String) (params : Option (Nat × Nat))
  /-- `pyodbc.connect`. -/
  | dbConnect
  /-- One `cur.execute` of a `MERGE` against the named table. -/
  | dbExec (table : String)
  /-- `conn.commit()`. -/
  | commit
  deriving DecidableEq, Repr

/-- Network events are exactly the HTTP requests. -/
def Event.isNetwork : Event → Bool
  | .httpGet _ _ => true
  | _ => false

/-- Database events: connect, statement execution, commit. -/
def Event.isDb : Event → Bool
  | .dbConnect => true
  | .dbExec _ => true
  | .commit => true
  | _ => false

/-- The upstream Jira behaviour: the configuration response and, per
`startAt` offset, the issues-page response.  An `error st` is an HTTP
failure status that `raise_for_status` turns into an exception. -/
structure Upstream where
  config : Except Nat ConfigResp
  issuePage : Nat → Except Nat (IssuePage IssueJson)

/-- The environment checks `jira_get` performs before each request.  They
reread the same module-level constants on every call, so within one run they
always give the same outcome. -/
def jira_get_checks (e : Env) : Except PyErr Unit :=
  match require_env "JIRA_BASE_URL" (some (jiraBaseUrlVal e)) with
  | .error err => .error err
  | .ok _ =>
    match require_env "JIRA_EMAIL" e.jiraEmail with
    | .error err => .error err
    | .ok _ =>
      match require_env "JIRA_API_TOKEN" e.jiraApiToken with
      | .error err => .error err
      | .ok _ => .ok ()

/-- The URL of the board-configuration endpoint. -/
def configUrl (e : Env) : String :=
  jiraBaseUrlVal e ++ "/rest/agile/1.0/board/" ++ toString e.boardId ++ "/configuration"

/-- The URL of the board-issues endpoint. -/
def issuesUrl (e : Env) : String :=
  jiraBaseUrlVal e ++ "/rest/agile/1.0/board/" ++ toString e.boardId ++ "/issue"

/-- `get_board_columns()` with its observable events: the `jira_get` call
(environment checks, then one GET) followed by the pure flattening. -/
def get_board_columns (e : Env) (up : Upstream) :
    List Event × Except PyErr (List ColRecord) :=
  match jira_get_checks e with
  | .error err => ([], .error err)
  | .ok _ =>
    match up.config with
    | .error st => ([.httpGet (configUrl e) none], .error (.httpError st))
    | .ok cfg => ([.httpGet (configUrl e) none],
                  .ok (board_columns_records e.boardId cfg))

/-- `get_board_issues()` with its observable events.  `jira_get` recheck of
the environment happens on every iteration; since the checks are pure in the
environment, a single check before the loop is observationally identical and
is used here. -/
def get_board_issues (e : Env) (up : Upstream) (fuel : Nat) :
    Option (List Event × Except PyErr (List IssueJson)) :=
  match jira_get_checks e with
  | .error err => some ([], .error err)
  | .ok _ =>
    match get_board_issues_pure up.issuePage fuel with
    | none => none
    | some (reqs, .error st) =>
      some (reqs.map (fun q => .httpGet (issuesUrl e) (some q)), .error (.httpError st))
    | some (reqs, .ok issues) =>
      some (reqs.map (fun q => .httpGet (issuesUrl e) (some q)), .ok issues)

/-- The four `require_env` checks at the top of `main`, in program order. -/
def main_checks (e : Env) : Except PyErr Unit :=
  match jira_get_checks e with
  | .error err => .error err
  | .ok _ =>
    match require_env "SQL_SERVER" e.sqlServer with
    | .error err => .error err
    | .ok _ => .ok ()

/-- The `require_env` checks `sql_conn()` performs before `pyodbc.connect`:
server and database always, username and password only under `SQL_AUTH=sql`. -/
def sql_conn_checks (e : Env) : Except PyErr Unit :=
  match require_env "SQL_SERVER" e.sqlServer with
  | .error err => .error err
  | .ok _ =>
    match require_env "SQL_DATABASE" (some (sqlDatabaseVal e)) with
    | .error err => .error err
    | .ok _ =>
      if sqlAuthVal e = "sql" then
        match require_env "SQL_USERNAME" e.sqlUsername with
        | .error err => .error err
        | .ok _ =>
          match require_env "SQL_PASSWORD" e.sqlPassword with
          | .error err => .error err
          | .ok _ => .ok ()
      else .ok ()

/-- The two destination tables. -/
structure Tables where
  columns : List ColRecord
  issues : List IssueRow
  deriving DecidableEq, Repr

/-- The database writes of one run: `upsert_columns` then `upsert_issues`,
using the in-memory `status_to_column` mapping. -/
def apply_sync (e : Env) (cols : List ColRecord) (issues : List IssueJson)
    (t : Tables) : Tables :=
  { columns := upsert_columns t.columns cols
    issues := upsert_issues e.boardId t.issues issues (status_to_column cols) }

/-- The database events of one run: one `MERGE` per record, then the commit. -/
def dbEvents (cols : List ColRecord) (issues : List IssueJson) : List Event :=
  cols.map (fun _ => .dbExec "dbo.JiraBoardColumns") ++
  issues.map (fun _ => .dbExec "dbo.JiraIssuesBoard") ++ [.commit]

/-- `main()`: the four configuration checks, the two fetches, the connection
checks, the writes and the commit, with the observable events in program
order.  The result carries the final tables and the reported issue count;
`none` means the pagination fuel ran out. -/
def mainTrace (fuel : Nat) (e : Env) (up : Upstream) (t : Tables) :
    Option (List Event × Except PyErr (Tables × Nat)) :=
  match main_checks e with
  | .error err => some ([], .error err)
  | .ok _ =>
    match get_board_columns e up with
    | (evs1, .error err) => some (evs1, .error err)
    | (evs1, .ok cols) =>
      match get_board_issues e up fuel with
      | none => none
      | some (evs2, .error err) => some (evs1 ++ evs2, .error err)
      | some (evs2, .ok issues) =>
        match sql_conn_checks e with
        | .error err => some (evs1 ++ evs2, .error err)
        | .ok _ =>
          some (evs1 ++ evs2 ++ [.dbConnect] ++ dbEvents cols issues,
                .ok (apply_sync e cols issues t, issues.length))

/-! ## Lemmas about the pagination loop -/

/-- Unfolding of one loop iteration once the fetch result is known. -/
lemma get_board_issues_loop_succ {α : Type} (fetch : Nat → Except Nat (IssuePage α))
    (n s : Nat) (acc : List α) (d : IssuePage α) (hf : fetch s = .ok d) :
    get_board_issues_loop fetch (n + 1) s acc =
      if d.issues.isEmpty then some ([(s, 50)], .ok acc)
      else if d.total.getD 0 ≤ s + d.issues.length then
        some ([(s, 50)], .ok (acc ++ d.issues))
      else
        match get_board_issues_loop fetch n (s + d.issues.length) (acc ++ d.issues) with
        | none => none
        | some (reqs, res) => some ((s, 50) :: reqs, res) := by
  simp [get_board_issues_loop, hf]

/-- C8 helper: both timestamp parse failures and falsy inputs yield `None`. -/
lemma to_dt_eq_none_cases (s : Option String)
    (h : s = none ∨ s = some "" ∨ pyFromIsoformat (replaceZ (s.getD "")) = none) :
    to_dt s = none := by
  rcases h with h | h | h
  · subst h; rfl
  · subst h; rfl
  · cases s with
    | none => rfl
    | some str =>
      simp only [Option.getD] at h
      by_cases he : str = ""
      · subst he; rfl
      · simpa [to_dt, he] using h

/-- C8: for every malformed or empty timestamp string, and for an absent
value, `to_dt` yields `None`; `to_dt` is a total function, so a per-field
parse failure never raises and never aborts the run. -/
theorem c8_lenient_timestamps (s : Option String)
    (h : s = none ∨ s = some "" ∨ pyFromIsoformat (replaceZ (s.getD "")) = none) :
    to_dt s = none :=
  to_dt_eq_none_cases s h

/-- Witness for C8 at the concrete malformed string `"not-a-timestamp"`. -/
theorem c8_lenient_timestamps_witness : to_dt (some "not-a-timestamp") = none :=
  c8_lenient_timestamps (some "not-a-timestamp") (Or.inr (Or.inr (by decide)))

/-- C9: for every valid ISO-8601 timestamp ending in `"Z"` (validity =
replacing the `"Z"` by `"+00:00"` parses), `to_dt` yields exactly the value
obtained by parsing the replaced form. -/
theorem c9_z_suffix_same_instant (s : String) (d : PyDateTime)
    (hz : s.toList.getLast? = some 'Z')
    (hp : pyFromIsoformat (replaceZ s) = some d) :
    to_dt (some s) = some d := by
  have hne : s ≠ "" := by
    intro he
    subst he
    simp [String.toList] at hz
  simpa [to_dt, hne] using hp

/-- Witness for C9 at `"2026-02-07T10:22:33Z"`. -/
theorem c9_z_suffix_same_instant_witness :
    to_dt (some "2026-02-07T10:22:33Z") = some ⟨2026, 2, 7, 10, 22, 33, 0, some 0⟩ :=
  c9_z_suffix_same_instant "2026-02-07T10:22:33Z" ⟨2026, 2, 7, 10, 22, 33, 0, some 0⟩
    (by decide) (by decide)

/-- C10: a page whose JSON lacks `total` is treated as `total = 0`; after a
non-empty first page the accumulated offset is `≥ 0 = total`, so the loop
stops at once: exactly one request is made and its issues are the whole
result, regardless of what the source would serve at later offsets. -/
theorem c10_missing_total_stops {α : Type} (fetch : Nat → Except Nat (IssuePage α))
    (chunk : List α) (fuel : Nat)
    (h0 : fetch 0 = .ok ⟨chunk, none⟩) (hne : chunk ≠ []) :
    get_board_issues_pure fetch (fuel + 1) = some ([(0, 50)], .ok chunk) := by
  unfold get_board_issues_pure
  rw [get_board_issues_loop_succ fetch fuel 0 [] ⟨chunk, none⟩ h0]
  simp [hne]

/-- Witness for C10: a source that reports no `total` and serves two issues
on every page; one request is made and the two first-page issues are the
whole result. -/
theorem c10_missing_total_stops_witness :
    get_board_issues_pure (fun _ => .ok ⟨[1, 2], none⟩) 1 =
      some ([(0, 50)], .ok [1, 2]) :=
  c10_missing_total_stops (fun _ => .ok ⟨[1, 2], none⟩) [1, 2] 0 rfl (by decide)

/-- Unfolding of one loop iteration on an HTTP failure. -/
lemma get_board_issues_loop_err {α : Type} (fetch : Nat → Except Nat (IssuePage α))
    (n s : Nat) (acc : List α) (st : Nat) (hf : fetch s = .error st) :
    get_board_issues_loop fetch (n + 1) s acc = some ([(s, 50)], .error st) := by
  simp [get_board_issues_loop, hf]

/-- Every terminating loop run begins with a request at the starting offset. -/
lemma get_board_issues_loop_head {α : Type} (fetch : Nat → Except Nat (IssuePage α))
    (fuel s : Nat) (acc : List α) (reqs : List (Nat × Nat))
    (res : Except Nat (List α))
    (h : get_board_issues_loop fetch fuel s acc = some (reqs, res)) :
    ∃ rest, reqs = (s, 50) :: rest := by
  cases fuel with
  | zero => simp [get_board_issues_loop] at h
  | succ n =>
    cases hf : fetch s with
    | error st =>
      rw [get_board_issues_loop_err fetch n s acc st hf] at h
      exact ⟨[], by simpa using congrArg (fun p => (Option.map Prod.fst p)) h.symm⟩
    | ok d =>
      rw [get_board_issues_loop_succ fetch n s acc d hf] at h
      split at h
      · exact ⟨[], by simpa using congrArg (fun p => (Option.map Prod.fst p)) h.symm⟩
      · split at h
        · exact ⟨[], by simpa using congrArg (fun p => (Option.map Prod.fst p)) h.symm⟩
        · split at h
          · exact absurd h (by simp)
          · rename_i reqs' res' heq
            exact ⟨reqs', by
              simpa using congrArg (fun p => (Option.map Prod.fst p)) h.symm⟩

/-- Every request the loop sends carries `maxResults = 50`. -/
lemma get_board_issues_loop_fifty {α : Type} (fetch : Nat → Except Nat (IssuePage α)) :
    ∀ (fuel s : Nat) (acc : List α) (reqs : List (Nat × Nat))
      (res : Except Nat (List α)),
      get_board_issues_loop fetch fuel s acc = some (reqs, res) →
      ∀ q ∈ reqs, q.2 = 50 := by
  intro fuel
  induction fuel with
  | zero => intro s acc reqs res h; simp [get_board_issues_loop] at h
  | succ n ih =>
    intro s acc reqs res h
    cases hf : fetch s with
    | error st =>
      rw [get_board_issues_loop_err fetch n s acc st hf] at h
      obtain ⟨h1, _⟩ := Prod.mk.injEq .. ▸ Option.some.inj h
      intro q hq
      rw [← h1] at hq
      simp at hq
      simp [hq]
    | ok d =>
      rw [get_board_issues_loop_succ fetch n s acc d hf] at h
      split at h
      · obtain ⟨h1, _⟩ := Prod.mk.injEq .. ▸ Option.some.inj h
        intro q hq
        rw [← h1] at hq
        simp at hq
        simp [hq]
      · split at h
        · obtain ⟨h1, _⟩ := Prod.mk.injEq .. ▸ Option.some.inj h
          intro q hq
          rw [← h1] at hq
          simp at hq
          simp [hq]
        · split at h
          · exact absurd h (by simp)
          · rename_i reqs' res' heq
            obtain ⟨h1, _⟩ := Prod.mk.injEq .. ▸ Option.some.inj h
            intro q hq
            rw [← h1] at hq
            rcases List.mem_cons.mp hq with hq | hq
            · simp [hq]
            · exact ih _ _ _ _ heq q hq

/-- The relation between two consecutive requests of the loop: the earlier
one succeeded with a non-empty page, the next offset is the earlier offset
plus the number of issues actually returned, and the accumulated offset had
not yet reached the reported total (else the loop would have stopped). -/
def pageStep {α : Type} (fetch : Nat → Except Nat (IssuePage α))
    (p q : Nat × Nat) : Prop :=
  ∃ d, fetch p.1 = .ok d ∧ d.issues ≠ [] ∧ q.1 = p.1 + d.issues.length ∧
    p.1 + d.issues.length < d.total.getD 0

/-- Consecutive requests of any terminating loop run are related by
`pageStep`: offsets advance by the returned page sizes, and the loop only
continues while the accumulated offset is below the reported total. -/
lemma get_board_issues_loop_chain {α : Type} (fetch : Nat → Except Nat (IssuePage α)) :
    ∀ (fuel s : Nat) (acc : List α) (reqs : List (Nat × Nat))
      (res : Except Nat (List α)),
      get_board_issues_loop fetch fuel s acc = some (reqs, res) →
      List.Chain' (pageStep fetch) reqs := by
  intro fuel
  induction fuel with
  | zero => intro s acc reqs res h; simp [get_board_issues_loop] at h
  | succ n ih =>
    intro s acc reqs res h
    cases hf : fetch s with
    | error st =>
      rw [get_board_issues_loop_err fetch n s acc st hf] at h
      obtain ⟨h1, _⟩ := Prod.mk.injEq .. ▸ Option.some.inj h
      rw [← h1]
      simp
    | ok d =>
      rw [get_board_issues_loop_succ fetch n s acc d hf] at h
      by_cases hempty : d.issues.isEmpty
      · rw [if_pos hempty] at h
        obtain ⟨h1, _⟩ := Prod.mk.injEq .. ▸ Option.some.inj h
        rw [← h1]; simp
      · rw [if_neg hempty] at h
        by_cases hle : d.total.getD 0 ≤ s + d.issues.length
        · rw [if_pos hle] at h
          obtain ⟨h1, _⟩ := Prod.mk.injEq .. ▸ Option.some.inj h
          rw [← h1]; simp
        · rw [if_neg hle] at h
          cases heq : get_board_issues_loop fetch n (s + d.issues.length)
              (acc ++ d.issues) with
          | none => rw [heq] at h; exact absurd h (by simp)
          | some pr =>
            obtain ⟨reqs', res'⟩ := pr
            rw [heq] at h
            obtain ⟨h1, _⟩ := Prod.mk.injEq .. ▸ Option.some.inj h
            rw [← h1]
            obtain ⟨rest, hrest⟩ := get_board_issues_loop_head fetch n
              (s + d.issues.length) (acc ++ d.issues) reqs' res' heq
            subst hrest
            exact List.Chain'.cons
              ⟨d, hf, by simpa using hempty, rfl, by omega⟩
              (ih _ _ _ _ heq)

/-- When the loop returns normally, its last request hit the stop condition:
the page was empty, or the accumulated offset reached the reported total. -/
lemma get_board_issues_loop_stop {α : Type} (fetch : Nat → Except Nat (IssuePage α)) :
    ∀ (fuel s : Nat) (acc issues : List α) (reqs : List (Nat × Nat)),
      get_board_issues_loop fetch fuel s acc = some (reqs, .ok issues) →
      ∃ o d, reqs.getLast? = some (o, 50) ∧ fetch o = .ok d ∧
        (d.issues = [] ∨ d.total.getD 0 ≤ o + d.issues.length) := by
  intro fuel
  induction fuel with
  | zero => intro s acc issues reqs h; simp [get_board_issues_loop] at h
  | succ n ih =>
    intro s acc issues reqs h
    cases hf : fetch s with
    | error st =>
      rw [get_board_issues_loop_err fetch n s acc st hf] at h
      obtain ⟨_, h2⟩ := Prod.mk.injEq .. ▸ Option.some.inj h
      exact absurd h2 (by simp)
    | ok d =>
      rw [get_board_issues_loop_succ fetch n s acc d hf] at h
      by_cases hempty : d.issues.isEmpty
      · rw [if_pos hempty] at h
        obtain ⟨h1, _⟩ := Prod.mk.injEq .. ▸ Option.some.inj h
        exact ⟨s, d, by rw [← h1]; rfl, hf, Or.inl (by simpa using hempty)⟩
      · rw [if_neg hempty] at h
        by_cases hle : d.total.getD 0 ≤ s + d.issues.length
        · rw [if_pos hle] at h
          obtain ⟨h1, _⟩ := Prod.mk.injEq .. ▸ Option.some.inj h
          exact ⟨s, d, by rw [← h1]; rfl, hf, Or.inr hle⟩
        · rw [if_neg hle] at h
          cases heq : get_board_issues_loop fetch n (s + d.issues.length)
              (acc ++ d.issues) with
          | none => rw [heq] at h; exact absurd h (by simp)
          | some pr =>
            obtain ⟨reqs', res'⟩ := pr
            rw [heq] at h
            obtain ⟨h1, h2⟩ := Prod.mk.injEq .. ▸ Option.some.inj h
            subst h2
            obtain ⟨rest, hrest⟩ := get_board_issues_loop_head fetch n
              (s + d.issues.length) (acc ++ d.issues) reqs' (.ok issues) heq
            obtain ⟨o, d', hlast, hfo, hstop⟩ := ih _ _ _ _ heq
            refine ⟨o, d', ?_, hfo, hstop⟩
            rw [← h1, hrest]
            rw [hrest] at hlast
            simpa [List.getLast?_cons_cons] using hlast

/-- C5: the issue fetcher always requests with the fixed page size 50; the
offset of each subsequent request is the previous offset plus the number of
issues actually returned, and the loop only continues while the accumulated
offset is below the reported total (`pageStep`); a normal finish happens
exactly at a page that returned zero issues or made the accumulated offset
reach the reported total; and an empty first page with reported total zero
is a valid empty result, not an error. -/
theorem c5_fetcher_contract :
    (∀ (α : Type) (fetch : Nat → Except Nat (IssuePage α)) (fuel : Nat)
       (reqs : List (Nat × Nat)) (res : Except Nat (List α)),
       get_board_issues_pure fetch fuel = some (reqs, res) →
       (∀ q ∈ reqs, q.2 = 50) ∧ List.Chain' (pageStep fetch) reqs ∧
       (∀ issues, res = .ok issues →
         ∃ o d, reqs.getLast? = some (o, 50) ∧ fetch o = .ok d ∧
           (d.issues = [] ∨ d.total.getD 0 ≤ o + d.issues.length))) ∧
    (∀ (α : Type) (fetch : Nat → Except Nat (IssuePage α)) (fuel : Nat),
       fetch 0 = .ok ⟨[], some 0⟩ →
       get_board_issues_pure fetch (fuel + 1) = some ([(0, 50)], .ok [])) := by
  constructor
  · intro α fetch fuel reqs res h
    refine ⟨get_board_issues_loop_fifty fetch fuel 0 [] reqs res h,
            get_board_issues_loop_chain fetch fuel 0 [] reqs res h, ?_⟩
    intro issues hres
    subst hres
    exact get_board_issues_loop_stop fetch fuel 0 [] issues reqs h
  · intro α fetch fuel h0
    unfold get_board_issues_pure
    rw [get_board_issues_loop_succ fetch fuel 0 [] ⟨[], some 0⟩ h0]
    simp

/-- Witness for C5: the empty-board source (empty first page, total 0)
yields the empty result after exactly one request. -/
theorem c5_fetcher_contract_witness :
    get_board_issues_pure (fun _ => .ok ⟨([] : List Nat), some 0⟩) 1 =
      some ([(0, 50)], .ok []) :=
  c5_fetcher_contract.2 Nat (fun _ => .ok ⟨[], some 0⟩) 0 rfl

/-- Against a faithful source holding `L`, the loop started at any offset
with enough fuel returns the remaining suffix of `L` and sends one request
per remaining page (always at least one request), with offsets advancing in
steps of 50. -/
lemma get_board_issues_loop_pageFetch {α : Type} (L : List α) :
    ∀ (fuel startAt : Nat) (acc : List α),
      0 < fuel → L.length < startAt + fuel →
      get_board_issues_loop (pageFetch L) fuel startAt acc =
        some ((List.range (max 1 ((L.length - startAt + 49) / 50))).map
                (fun i => (startAt + i * 50, 50)),
              .ok (acc ++ L.drop startAt)) := by
  intro fuel
  induction fuel with
  | zero => intro startAt acc hpos _; omega
  | succ n ih =>
    intro startAt acc _ hlen
    have hf : pageFetch L startAt =
        .ok ⟨(L.drop startAt).take 50, some L.length⟩ := rfl
    rw [get_board_issues_loop_succ (pageFetch L) n startAt acc _ hf]
    have hlentake : ((L.drop startAt).take 50).length = min 50 (L.length - startAt) := by
      rw [List.length_take, List.length_drop]
    by_cases hA : L.length ≤ startAt
    · have hdrop : L.drop startAt = [] := List.drop_eq_nil_of_le hA
      rw [hdrop]
      have hm : L.length - startAt = 0 := by omega
      rw [hm]
      have hr1 : List.range 1 = [0] := by decide
      simp [hr1]
    · have hne : ¬((L.drop startAt).take 50).isEmpty := by
        rw [List.isEmpty_iff]
        intro hc
        have := congrArg List.length hc
        rw [hlentake] at this
        simp at this
        omega
      rw [if_neg hne]
      by_cases hB : L.length - startAt ≤ 50
      · have hcond : (some L.length).getD 0 ≤ startAt + ((L.drop startAt).take 50).length := by
          simp only [Option.getD]
          rw [hlentake]
          omega
        rw [if_pos hcond]
        have htake : (L.drop startAt).take 50 = L.drop startAt := by
          apply List.take_of_length_le
          rw [List.length_drop]
          omega
        rw [htake]
        have hq : max 1 ((L.length - startAt + 49) / 50) = 1 := by omega
        rw [hq]
        have hr1 : List.range 1 = [0] := by decide
        rw [hr1]
        simp
      · have hcond : ¬((some L.length).getD 0 ≤ startAt + ((L.drop startAt).take 50).length) := by
          simp only [Option.getD]
          rw [hlentake]
          omega
        rw [if_neg hcond]
        have hlen50 : ((L.drop startAt).take 50).length = 50 := by
          rw [hlentake]; omega
        rw [hlen50]
        rw [ih (startAt + 50) (acc ++ (L.drop startAt).take 50) (by omega) (by omega)]
        have hissues : (acc ++ (L.drop startAt).take 50) ++ L.drop (startAt + 50) =
            acc ++ L.drop startAt := by
          rw [List.append_assoc]
          congr 1
          have hdd : L.drop (startAt + 50) = (L.drop startAt).drop 50 :=
            (List.drop_drop 50 startAt L).symm
          rw [hdd]
          exact List.take_append_drop 50 (L.drop startAt)
        rw [hissues]
        have hsub : L.length - (startAt + 50) + 49 = (L.length - startAt + 49) - 50 := by
          omega
        have hk : ∃ k, (L.length - (startAt + 50) + 49) / 50 = k ∧
            (L.length - startAt + 49) / 50 = k + 1 ∧ 1 ≤ k := by
          refine ⟨(L.length - (startAt + 50) + 49) / 50, rfl, by omega, by omega⟩
        obtain ⟨k, hk1, hk2, hk3⟩ := hk
        rw [hk1, hk2]
        have hmax1 : max 1 k = k := by omega
        have hmax2 : max 1 (k + 1) = k + 1 := by omega
        rw [hmax1, hmax2]
        rw [List.range_succ_eq_map, List.map_cons, List.map_map]
        have hfun : ((fun i => (startAt + i * 50, 50)) ∘ Nat.succ) =
            (fun i => (startAt + 50 + i * 50, 50)) := by
          funext i
          show (startAt + (i + 1) * 50, 50) = (startAt + 50 + i * 50, 50)
          have harith : startAt + (i + 1) * 50 = startAt + 50 + i * 50 := by ring
          rw [harith]
        rw [hfun]
        simp

/-- Against a faithful source holding `L`, `get_board_issues` returns all of
`L` (so the accumulated count equals the reported total) and requests
exactly the pages `0, 50, 100, ...`. -/
lemma get_board_issues_pure_pageFetch {α : Type} (L : List α) (fuel : Nat)
    (hfuel : L.length < fuel) :
    get_board_issues_pure (pageFetch L) fuel =
      some (expectedReqs L.length, .ok L) := by
  unfold get_board_issues_pure
  rw [get_board_issues_loop_pageFetch L fuel 0 [] (by omega) (by omega)]
  simp only [Nat.sub_zero, List.drop_zero, List.nil_append]
  unfold expectedReqs
  have hmap : (List.range (max 1 ((L.length + 49) / 50))).map
        (fun i => (0 + i * 50, 50)) =
      (List.range (max 1 ((L.length + 49) / 50))).map (fun i => (i * 50, 50)) := by
    apply List.map_congr_left
    intro a _
    rw [Nat.zero_add]
  rw [hmap]

/-- The claim's quantitative scenario: a faithful 120-issue source is
fetched with exactly three requests, at offsets 0, 50 and 100. -/
lemma pageFetch_120_scenario :
    get_board_issues_pure (pageFetch (List.range 120)) 121 =
      some ([(0, 50), (50, 50), (100, 50)], .ok (List.range 120)) := by
  have h := get_board_issues_pure_pageFetch (List.range 120) 121
    (by rw [List.length_range]; omega)
  rw [List.length_range] at h
  rw [h]
  have hr : expectedReqs 120 = [(0, 50), (50, 50), (100, 50)] := by decide
  rw [hr]

/-- C2 counterexample: at the claim's own scenario (a faithful source with
`total = 120` and pages of 50), the first page returns 50 issues — fewer
than the 120 that would be needed to reach the total — yet fetching does
not stop there: two further requests, at offsets 50 and 100, are made. -/
theorem c2_counterexample :
    pageFetch (List.range 120) 0 = .ok ⟨List.range 50, some 120⟩ ∧
    (List.range 50).length < 120 ∧
    get_board_issues_pure (pageFetch (List.range 120)) 121 =
      some ([(0, 50), (50, 50), (100, 50)], .ok (List.range 120)) :=
  ⟨rfl, by simp, pageFetch_120_scenario⟩

/-- C2 (amended): against a faithful source, the final accumulated issue
list is the source's entire list — the count equals the reported total —
and the requests are exactly one per page at offsets `0, 50, 100, ...`;
fetching stops as soon as a page returns zero issues or the accumulated
offset reaches the reported total (rather than "as soon as a page returns
fewer issues than would be needed to reach the total"); in particular, with
`total = 120` and pages of 50, exactly three requests are made, at offsets
0, 50 and 100, accumulating 120 issues. -/
theorem c2_amended_pagination_total :
    (∀ (α : Type) (L : List α) (fuel : Nat), L.length < fuel →
       get_board_issues_pure (pageFetch L) fuel =
         some (expectedReqs L.length, .ok L)) ∧
    (∀ (α : Type) (fetch : Nat → Except Nat (IssuePage α)) (fuel : Nat)
       (reqs : List (Nat × Nat)) (issues : List α),
       get_board_issues_pure fetch fuel = some (reqs, .ok issues) →
       ∃ o d, reqs.getLast? = some (o, 50) ∧ fetch o = .ok d ∧
         (d.issues = [] ∨ d.total.getD 0 ≤ o + d.issues.length)) ∧
    (get_board_issues_pure (pageFetch (List.range 120)) 121 =
      some ([(0, 50), (50, 50), (100, 50)], .ok (List.range 120))) := by
  refine ⟨?_, ?_, pageFetch_120_scenario⟩
  · intro α L fuel hfuel
    exact get_board_issues_pure_pageFetch L fuel hfuel
  · intro α fetch fuel reqs issues h
    exact get_board_issues_loop_stop fetch fuel 0 [] issues reqs h

/-- Witness for C2 (amended) on a three-issue faithful source: one request
at offset 0 retrieves all three issues. -/
theorem c2_amended_pagination_total_witness :
    get_board_issues_pure (pageFetch [7, 8, 9]) 4 =
      some (expectedReqs 3, .ok [7, 8, 9]) :=
  c2_amended_pagination_total.1 Nat [7, 8, 9] 4 (by decide)

/-! ## Lemmas about the `status_to_column` dict -/

/-- Lookup after assignment: the assigned key reads back the new value,
every other key is unaffected. -/
lemma dictGet_dictSet (d : Dict) (k k' : String) (v : Option String) :
    dictGet (dictSet d k v) k' = if k' = k then some v else dictGet d k' := by
  induction d with
  | nil =>
    by_cases hk : k' = k
    · simp [dictSet, dictGet, hk]
    · have hk2 : ¬(k = k') := fun h => hk h.symm
      simp [dictSet, dictGet, hk, hk2]
  | cons p d ih =>
    by_cases hp : p.1 = k
    · by_cases hk : k' = k
      · subst hk
        simp [dictSet, dictGet, hp]
      · have hk2 : ¬(k = k') := fun h => hk h.symm
        have hpk : ¬(p.1 = k') := by rw [hp]; exact hk2
        simp [dictSet, dictGet, hp, hk, hk2, hpk]
    · by_cases hpk : p.1 = k'
      · have hk : ¬(k' = k) := by
          intro h
          exact hp (by rw [hpk, h])
        simp [dictSet, dictGet, hp, hpk, hk]
      · simp [dictSet, dictGet, hp, hpk, ih]

/-- Building the dict from one more pair assigns that pair last. -/
lemma dictOfPairs_append (ps : List (String × Option String))
    (q : String × Option String) :
    dictOfPairs (ps ++ [q]) = dictSet (dictOfPairs ps) q.1 q.2 := by
  simp [dictOfPairs, List.foldl_append]

/-- The dict built by the comprehension reads back, for each key, the value
of the *last* pair with that key in iteration order (later pairs overwrite
earlier ones), and misses exactly the keys of no pair. -/
lemma dictGet_dictOfPairs (ps : List (String × Option String)) (k : String) :
    dictGet (dictOfPairs ps) k =
      (ps.reverse.find? fun p => decide (p.1 = k)).map (fun p => p.2) := by
  induction ps using List.reverseRecOn with
  | nil => simp [dictOfPairs, dictGet]
  | append_singleton ps q ih =>
    rw [dictOfPairs_append, dictGet_dictSet]
    have hrev : (ps ++ [q]).reverse = q :: ps.reverse := by simp
    rw [hrev]
    by_cases hq : q.1 = k
    · simp [List.find?, hq]
    · have hfind : (q :: ps.reverse).find? (fun p => decide (p.1 = k)) =
          ps.reverse.find? (fun p => decide (p.1 = k)) := by
        simp [List.find?, hq]
      rw [hfind, if_neg (fun h => hq h.symm), ih]

/-- Every entry of the dict after an assignment is an old entry or the
assigned pair. -/
lemma mem_dictSet (d : Dict) (k : String) (v : Option String)
    (p : String × Option String) (hp : p ∈ dictSet d k v) : p ∈ d ∨ p = (k, v) := by
  induction d with
  | nil => simpa [dictSet] using hp
  | cons q d ih =>
    by_cases hq : q.1 = k
    · rw [dictSet, if_pos hq] at hp
      rcases List.mem_cons.mp hp with h | h
      · exact Or.inr h
      · exact Or.inl (List.mem_cons_of_mem q h)
    · rw [dictSet, if_neg hq] at hp
      rcases List.mem_cons.mp hp with h | h
      · exact Or.inl (by rw [h]; exact List.mem_cons_self q d)
      · rcases ih h with h' | h'
        · exact Or.inl (List.mem_cons_of_mem q h')
        · exact Or.inr h'

/-- Entries of the built dict come from the source pair list. -/
lemma mem_dictOfPairs (ps : List (String × Option String))
    (p : String × Option String) (hp : p ∈ dictOfPairs ps) : p ∈ ps := by
  induction ps using List.reverseRecOn with
  | nil => simp [dictOfPairs] at hp
  | append_singleton ps q ih =>
    rw [dictOfPairs_append] at hp
    rcases mem_dictSet _ _ _ _ hp with h | h
    · exact List.mem_append_left _ (ih h)
    · rw [h]
      exact List.mem_append_right _ (by simp)

/-- A successful lookup exhibits a dict entry. -/
lemma dictGet_mem (d : Dict) (k : String) (val : Option String)
    (h : dictGet d k = some val) : (k, val) ∈ d := by
  induction d with
  | nil => simp [dictGet] at h
  | cons p d ih =>
    by_cases hp : p.1 = k
    · rw [dictGet, if_pos hp] at h
      have hv : val = p.2 := (Option.some.inj h).symm
      have hkp : (k, val) = p := by
        rw [hv, ← hp]
      rw [hkp]
      exact List.mem_cons_self p d
    · rw [dictGet, if_neg hp] at h
      exact List.mem_cons_of_mem p (ih h)

/-- Every record produced by flattening a board configuration carries the
configured board id. -/
lemma board_columns_records_boardId (bid : Int) (cfg : ConfigResp) :
    ∀ c ∈ board_columns_records bid cfg, c.BoardId = bid := by
  intro c hc
  simp only [board_columns_records, List.mem_flatten, List.mem_map] at hc
  obtain ⟨l, ⟨col, hcol, hl⟩, hcl⟩ := hc
  rw [← hl] at hcl
  obtain ⟨st, hst, hrec⟩ := List.mem_map.mp hcl
  rw [← hrec]

/-- Resolution of a string status id through the `status_to_column` dict:
the column name of the last record with that status id in iteration order
(`find?` on the reversed record list), or `None` when no record has it. -/
lemma dict_get_opt_status_to_column_some (cols : List ColRecord) (sid : String) :
    dict_get_opt (status_to_column cols) (some sid) =
      match cols.reverse.find? (fun c => decide (c.StatusId = sid)) with
      | some c => c.ColumnName
      | none => none := by
  show (dictGet (status_to_column cols) sid).join = _
  rw [show status_to_column cols =
        dictOfPairs (cols.map fun c => (c.StatusId, c.ColumnName)) from rfl]
  rw [dictGet_dictOfPairs]
  have hrevmap : (cols.map fun c => (c.StatusId, c.ColumnName)).reverse =
      cols.reverse.map fun c => (c.StatusId, c.ColumnName) := by
    rw [List.map_reverse]
  rw [hrevmap, List.find?_map]
  have hpred : ((fun p : String × Option String => decide (p.1 = sid)) ∘
      fun c : ColRecord => (c.StatusId, c.ColumnName)) =
      fun c : ColRecord => decide (c.StatusId = sid) := by
    funext c
    rfl
  rw [hpred]
  cases cols.reverse.find? (fun c => decide (c.StatusId = sid)) with
  | none => rfl
  | some c => rfl

/-- C7: the column name of every row written is resolved by looking up the
row's (stringified) status id in the mapping built from the board
configuration: a `None` status id or a status id absent from the mapping
yields a `None` column name without error, and when several `(column,
status)` records list the same status id, the last record in iteration
order determines the column name. -/
theorem c7_column_resolution (bid : Int) (cfg : ConfigResp) (it : IssueJson) :
    (issueToRow bid (status_to_column (board_columns_records bid cfg)) it).ColumnName =
      match (issueToRow bid (status_to_column (board_columns_records bid cfg)) it).StatusId with
      | none => none
      | some sid =>
        match (board_columns_records bid cfg).reverse.find?
            (fun c => decide (c.StatusId = sid)) with
        | some c => c.ColumnName
        | none => none := by
  have hcol : (issueToRow bid (status_to_column (board_columns_records bid cfg)) it).ColumnName =
      dict_get_opt (status_to_column (board_columns_records bid cfg))
        ((issueToRow bid (status_to_column (board_columns_records bid cfg)) it).StatusId) := rfl
  rw [hcol]
  cases hsid : (issueToRow bid (status_to_column (board_columns_records bid cfg)) it).StatusId with
  | none => rfl
  | some sid => exact dict_get_opt_status_to_column_some (board_columns_records bid cfg) sid

/-- C4: every issue row built at write time has a column name that is
either `None` or the column name of some fetched `(column, status)` mapping
record with the same board id and the same (stringified) status id — the
enrichment never invents a column name outside the fetched mapping. -/
theorem c4_column_name_from_mapping (bid : Int) (cfg : ConfigResp) (it : IssueJson) :
    (issueToRow bid (status_to_column (board_columns_records bid cfg)) it).ColumnName = none ∨
    ∃ c ∈ board_columns_records bid cfg,
      c.BoardId = (issueToRow bid (status_to_column (board_columns_records bid cfg)) it).BoardId ∧
      some c.StatusId = (issueToRow bid (status_to_column (board_columns_records bid cfg)) it).StatusId ∧
      c.ColumnName = (issueToRow bid (status_to_column (board_columns_records bid cfg)) it).ColumnName := by
  cases hv : (issueToRow bid (status_to_column (board_columns_records bid cfg)) it).ColumnName with
  | none => exact Or.inl rfl
  | some v =>
    right
    have hcol : dict_get_opt (status_to_column (board_columns_records bid cfg))
        ((issueToRow bid (status_to_column (board_columns_records bid cfg)) it).StatusId) =
        some v := hv
    cases hsid : (issueToRow bid (status_to_column (board_columns_records bid cfg)) it).StatusId with
    | none => rw [hsid] at hcol; exact absurd hcol (by simp [dict_get_opt])
    | some sid =>
      rw [hsid] at hcol
      have hget : dictGet (status_to_column (board_columns_records bid cfg)) sid =
          some (some v) := Option.join_eq_some.mp hcol
      have hmem : (sid, some v) ∈ (board_columns_records bid cfg).map
          (fun c => (c.StatusId, c.ColumnName)) :=
        mem_dictOfPairs _ _ (dictGet_mem _ _ _ hget)
      obtain ⟨c, hc, hcev⟩ := List.mem_map.mp hmem
      refine ⟨c, hc, ?_, ?_, ?_⟩
      · exact board_columns_records_boardId bid cfg c hc
      · have h1 : c.StatusId = sid := congrArg Prod.fst hcev
        rw [h1]
      · exact congrArg Prod.snd hcev

/-! ## Lemmas about the `MERGE` upserts

Both destination tables instantiate the same schema: a key function and an
update function that overwrites every non-key column, so that updating a row
with a record of the same key yields the record itself (`updCol_eq_self`,
`updIssue_eq_self`).  The lemmas below are generic in those two functions
under that hypothesis. -/

/-- The key test performed by a `MERGE`'s `ON` clause over a table. -/
def pyHasKey {ρ κ : Type} [DecidableEq κ] (key : ρ → κ) (t : List ρ) (k : κ) : Bool :=
  t.any fun x => decide (key x = k)

/-- The last source record with a given key, in iteration order. -/
def lastFor {ρ κ : Type} [DecidableEq κ] (key : ρ → κ) (rs : List ρ) (k : κ) : Option ρ :=
  rs.reverse.find? fun r => decide (key r = k)

/-- Updating a matched `JiraBoardColumns` row overwrites every non-key
column, so the updated row is the incoming record. -/
lemma updCol_eq_self (x c : ColRecord) (h : keyCol x = keyCol c) : updCol x c = c := by
  cases x
  cases c
  simp only [keyCol, Prod.mk.injEq] at h
  simp [updCol, h.1, h.2]

/-- Updating a matched `JiraIssuesBoard` row overwrites every non-key
column, so the updated row is the incoming record. -/
lemma updIssue_eq_self (x r : IssueRow) (h : keyIssue x = keyIssue r) : updIssue x r = r := by
  cases x
  cases r
  simp only [keyIssue, Prod.mk.injEq] at h
  simp [updIssue, h.1, h.2]

section MergeGeneric

variable {ρ κ : Type} [DecidableEq κ] (key : ρ → κ) (upd : ρ → ρ → ρ)

/-- A `MERGE` whose key is present updates the matching rows in place: the
result is the pointwise map replacing exactly the rows with the incoming
key by the incoming record. -/
lemma pyMerge_present (hupd : ∀ x r, key x = key r → upd x r = r)
    (t : List ρ) (r : ρ) (hk : pyHasKey key t (key r) = true) :
    pyMerge key upd t r = t.map fun x => if key x = key r then r else x := by
  have hk2 : (t.any fun x => decide (key x = key r)) = true := hk
  rw [pyMerge, if_pos hk2]
  apply List.map_congr_left
  intro x _
  by_cases h : key x = key r
  · rw [if_pos h, if_pos h, hupd x r h]
  · rw [if_neg h, if_neg h]

/-- A `MERGE` whose key is absent appends the incoming record. -/
lemma pyMerge_absent (t : List ρ) (r : ρ) (hk : pyHasKey key t (key r) = false) :
    pyMerge key upd t r = t ++ [r] := by
  have hk2 : ¬((t.any fun x => decide (key x = key r)) = true) := by
    intro hc
    rw [pyHasKey] at hk
    rw [hc] at hk
    cases hk
  rw [pyMerge, if_neg hk2]

/-- Membership after one `MERGE`: an untouched old row with a different key,
or the incoming record. -/
lemma mem_pyMerge (hupd : ∀ x r, key x = key r → upd x r = r)
    (t : List ρ) (r x : ρ) (hx : x ∈ pyMerge key upd t r) :
    (x ∈ t ∧ key x ≠ key r) ∨ x = r := by
  cases hk : pyHasKey key t (key r) with
  | true =>
    rw [pyMerge_present key upd hupd t r hk] at hx
    obtain ⟨y, hy, hxy⟩ := List.mem_map.mp hx
    by_cases h : key y = key r
    · rw [if_pos h] at hxy
      exact Or.inr hxy.symm
    · rw [if_neg h] at hxy
      exact Or.inl ⟨hxy ▸ hy, hxy ▸ h⟩
  | false =>
    rw [pyMerge_absent key upd t r hk] at hx
    rcases List.mem_append.mp hx with h | h
    · refine Or.inl ⟨h, ?_⟩
      have hk2 : (t.any fun y => decide (key y = key r)) = false := hk
      have hall : ∀ y ∈ t, (decide (key y = key r)) = false := fun y hy =>
        Bool.eq_false_iff.mpr (List.any_eq_false.mp hk2 y hy)
      exact of_decide_eq_false (hall x h)
    · exact Or.inr (by simpa using h)

/-- The incoming record's key is present after the `MERGE`. -/
lemma pyHasKey_pyMerge_self (hupd : ∀ x r, key x = key r → upd x r = r)
    (t : List ρ) (r : ρ) :
    pyHasKey key (pyMerge key upd t r) (key r) = true := by
  cases hk : pyHasKey key t (key r) with
  | true =>
    rw [pyMerge_present key upd hupd t r hk]
    obtain ⟨x, hx, hpx⟩ := List.any_eq_true.mp hk
    refine List.any_eq_true.mpr ⟨(if key x = key r then r else x), List.mem_map_of_mem _ hx, ?_⟩
    have hkey : key x = key r := of_decide_eq_true hpx
    rw [if_pos hkey]
    simp
  | false =>
    rw [pyMerge_absent key upd t r hk]
    refine List.any_eq_true.mpr ⟨r, List.mem_append_right _ (by simp), by simp⟩

/-- Keys present before a `MERGE` stay present. -/
lemma pyHasKey_pyMerge_mono (hupd : ∀ x r, key x = key r → upd x r = r)
    (t : List ρ) (r : ρ) (k : κ) (h : pyHasKey key t k = true) :
    pyHasKey key (pyMerge key upd t r) k = true := by
  obtain ⟨x, hx, hpx⟩ := List.any_eq_true.mp h
  have hkey : key x = k := of_decide_eq_true hpx
  cases hk : pyHasKey key t (key r) with
  | true =>
    rw [pyMerge_present key upd hupd t r hk]
    by_cases hxr : key x = key r
    · refine List.any_eq_true.mpr ⟨(if key x = key r then r else x), List.mem_map_of_mem _ hx, ?_⟩
      rw [if_pos hxr]
      simp [← hxr, hkey]
    · refine List.any_eq_true.mpr ⟨(if key x = key r then r else x), List.mem_map_of_mem _ hx, ?_⟩
      rw [if_neg hxr]
      simp [hkey]
  | false =>
    rw [pyMerge_absent key upd t r hk]
    exact List.any_eq_true.mpr ⟨x, List.mem_append_left _ hx, hpx⟩

/-- Keys present before an upsert sequence stay present. -/
lemma pyHasKey_pyUpsertAll_mono (hupd : ∀ x r, key x = key r → upd x r = r)
    (rs : List ρ) :
    ∀ (t : List ρ) (k : κ), pyHasKey key t k = true →
      pyHasKey key (pyUpsertAll key upd t rs) k = true := by
  induction rs with
  | nil => intro t k h; exact h
  | cons r rs ih =>
    intro t k h
    exact ih (pyMerge key upd t r) k (pyHasKey_pyMerge_mono key upd hupd t r k h)

/-- After the upsert sequence, every source record's key is present. -/
lemma pyHasKey_pyUpsertAll_of_mem (hupd : ∀ x r, key x = key r → upd x r = r)
    (rs : List ρ) :
    ∀ (t : List ρ) (r : ρ), r ∈ rs →
      pyHasKey key (pyUpsertAll key upd t rs) (key r) = true := by
  induction rs with
  | nil => intro t r h; cases h
  | cons r0 rs ih =>
    intro t r hr
    rcases List.mem_cons.mp hr with h | h
    · subst h
      exact pyHasKey_pyUpsertAll_mono key upd hupd rs (pyMerge key upd t r) (key r)
        (pyHasKey_pyMerge_self key upd hupd t r)
    · exact ih (pyMerge key upd t r0) r h

end MergeGeneric

section MergeGenericTwo

variable {ρ κ : Type} [DecidableEq κ] (key : ρ → κ) (upd : ρ → ρ → ρ)

/-- `lastFor` on a cons: later records take precedence. -/
lemma lastFor_cons (r : ρ) (rs : List ρ) (k : κ) :
    lastFor key (r :: rs) k =
      (lastFor key rs k).or (if key r = k then some r else none) := by
  rw [lastFor, List.reverse_cons, List.find?_append]
  congr 1
  by_cases h : key r = k
  · simp [List.find?, h]
  · simp [List.find?, h]

/-- Membership after an upsert sequence: an old row whose key never occurs
in the source records, or the last source record with that key. -/
lemma mem_pyUpsertAll (hupd : ∀ x r, key x = key r → upd x r = r) (rs : List ρ) :
    ∀ (t : List ρ) (x : ρ), x ∈ pyUpsertAll key upd t rs →
      (x ∈ t ∧ lastFor key rs (key x) = none) ∨ lastFor key rs (key x) = some x := by
  induction rs with
  | nil => intro t x hx; exact Or.inl ⟨hx, rfl⟩
  | cons r rs ih =>
    intro t x hx
    have hx2 : x ∈ pyUpsertAll key upd (pyMerge key upd t r) rs := hx
    rcases ih (pyMerge key upd t r) x hx2 with ⟨hmem, hnone⟩ | hsome
    · rcases mem_pyMerge key upd hupd t r x hmem with ⟨hmt, hne⟩ | heq
      · refine Or.inl ⟨hmt, ?_⟩
        rw [lastFor_cons, hnone, if_neg (fun h => hne h.symm)]
        rfl
      · subst heq
        right
        rw [lastFor_cons, hnone, if_pos rfl]
        rfl
    · right
      rw [lastFor_cons, hsome]
      rfl

/-- The composite effect of a second pass of updates on a single row: the
last matching record wins (or the row is untouched). -/
def applyLast (rs : List ρ) (x : ρ) : ρ :=
  rs.foldl (fun y r => if key y = key r then upd y r else y) x

lemma applyLast_eq (hupd : ∀ x r, key x = key r → upd x r = r) (rs : List ρ) :
    ∀ x, applyLast key upd rs x = (lastFor key rs (key x)).getD x := by
  induction rs with
  | nil => intro x; rfl
  | cons r rs ih =>
    intro x
    have hstep : applyLast key upd (r :: rs) x =
        applyLast key upd rs (if key x = key r then upd x r else x) := rfl
    rw [hstep]
    by_cases h : key x = key r
    · rw [if_pos h, hupd x r h, ih r, lastFor_cons, ← h]
      cases hl : lastFor key rs (key x) with
      | some y => rfl
      | none => rw [if_pos rfl]; rfl
    · rw [if_neg h, ih x, lastFor_cons]
      cases hl : lastFor key rs (key x) with
      | some y => rfl
      | none => rw [if_neg (fun hc => h hc.symm)]; rfl

/-- When every source key is already present, the upsert sequence performs
pure in-place updates: it is the pointwise `applyLast` map. -/
lemma pyUpsertAll_all_present (hupd : ∀ x r, key x = key r → upd x r = r)
    (rs : List ρ) :
    ∀ (A : List ρ), (∀ r ∈ rs, pyHasKey key A (key r) = true) →
      pyUpsertAll key upd A rs = A.map (applyLast key upd rs) := by
  induction rs with
  | nil =>
    intro A _
    show A = A.map fun x => x
    rw [List.map_id']
  | cons r rs ih =>
    intro A hpres
    have hk : pyHasKey key A (key r) = true := hpres r (by simp)
    show pyUpsertAll key upd (pyMerge key upd A r) rs = A.map (applyLast key upd (r :: rs))
    rw [pyMerge_present key upd hupd A r hk]
    have hpres2 : ∀ r' ∈ rs,
        pyHasKey key (A.map fun x => if key x = key r then r else x) (key r') = true := by
      intro r' hr'
      obtain ⟨x, hx, hpx⟩ := List.any_eq_true.mp (hpres r' (List.mem_cons_of_mem r hr'))
      refine List.any_eq_true.mpr
        ⟨(if key x = key r then r else x), List.mem_map_of_mem _ hx, ?_⟩
      have hxk : key x = key r' := of_decide_eq_true hpx
      by_cases hxr : key x = key r
      · rw [if_pos hxr]
        exact decide_eq_true (hxr ▸ hxk)
      · rw [if_neg hxr]
        exact hpx
    rw [ih _ hpres2, List.map_map]
    apply List.map_congr_left
    intro x _
    show applyLast key upd rs (if key x = key r then r else x) = applyLast key upd (r :: rs) x
    have hstep : applyLast key upd (r :: rs) x =
        applyLast key upd rs (if key x = key r then upd x r else x) := rfl
    rw [hstep]
    by_cases hxr : key x = key r
    · rw [if_pos hxr, if_pos hxr, hupd x r hxr]
    · rw [if_neg hxr, if_neg hxr]

/-- Idempotence of the upsert sequence: replaying the same records over the
already-upserted table changes nothing. -/
lemma pyUpsertAll_idem (hupd : ∀ x r, key x = key r → upd x r = r)
    (t : List ρ) (rs : List ρ) :
    pyUpsertAll key upd (pyUpsertAll key upd t rs) rs = pyUpsertAll key upd t rs := by
  have hpres : ∀ r ∈ rs, pyHasKey key (pyUpsertAll key upd t rs) (key r) = true :=
    fun r hr => pyHasKey_pyUpsertAll_of_mem key upd hupd rs t r hr
  rw [pyUpsertAll_all_present key upd hupd rs _ hpres]
  have hfix : ∀ x ∈ pyUpsertAll key upd t rs, applyLast key upd rs x = x := by
    intro x hx
    rw [applyLast_eq key upd hupd rs x]
    rcases mem_pyUpsertAll key upd hupd rs t x hx with ⟨_, hnone⟩ | hsome
    · rw [hnone]
      rfl
    · rw [hsome]
      rfl
  rw [List.map_congr_left hfix, List.map_id']

end MergeGenericTwo

/-- C6: when the destination table already holds the upsert key, one `MERGE`
execution — for either table — rewrites exactly the rows with that key in
place to the incoming record, preserves the table's length (no duplicate row
is created), and leaves every row with a different key in the table
unchanged. -/
theorem c6_upsert_updates_in_place :
    (∀ (t : List ColRecord) (c : ColRecord),
       pyHasKey keyCol t (keyCol c) = true →
       mergeColRow t c = (t.map fun x => if keyCol x = keyCol c then c else x) ∧
       (mergeColRow t c).length = t.length ∧
       ∀ x ∈ t, keyCol x ≠ keyCol c → x ∈ mergeColRow t c) ∧
    (∀ (t : List IssueRow) (r : IssueRow),
       pyHasKey keyIssue t (keyIssue r) = true →
       mergeIssueRow t r = (t.map fun x => if keyIssue x = keyIssue r then r else x) ∧
       (mergeIssueRow t r).length = t.length ∧
       ∀ x ∈ t, keyIssue x ≠ keyIssue r → x ∈ mergeIssueRow t r) := by
  constructor
  · intro t c hk
    have hmap : mergeColRow t c = t.map fun x => if keyCol x = keyCol c then c else x :=
      pyMerge_present keyCol updCol updCol_eq_self t c hk
    refine ⟨hmap, by rw [hmap, List.length_map], ?_⟩
    intro x hx hne
    rw [hmap]
    exact List.mem_map.mpr ⟨x, hx, if_neg hne⟩
  · intro t r hk
    have hmap : mergeIssueRow t r = t.map fun x => if keyIssue x = keyIssue r then r else x :=
      pyMerge_present keyIssue updIssue updIssue_eq_self t r hk
    refine ⟨hmap, by rw [hmap, List.length_map], ?_⟩
    intro x hx hne
    rw [hmap]
    exact List.mem_map.mpr ⟨x, hx, if_neg hne⟩

/-- Witness for C6: a one-row columns table whose key matches the incoming
record is rewritten in place to the incoming record. -/
theorem c6_upsert_updates_in_place_witness :
    mergeColRow [⟨2, some "To Do", "1", some "Open"⟩] ⟨2, some "Done", "1", some "Closed"⟩ =
      ([⟨2, some "To Do", "1", some "Open"⟩].map fun x =>
        if keyCol x = keyCol ⟨2, some "Done", "1", some "Closed"⟩
        then ⟨2, some "Done", "1", some "Closed"⟩ else x) :=
  (c6_upsert_updates_in_place.1 [⟨2, some "To Do", "1", some "Open"⟩]
    ⟨2, some "Done", "1", some "Closed"⟩ (by decide)).1

/-- `upsert_columns` is the generic upsert sequence for the columns table. -/
lemma upsert_columns_eq (t : List ColRecord) (cols : List ColRecord) :
    upsert_columns t cols = pyUpsertAll keyCol updCol t cols := rfl

/-- `upsert_issues` is the generic upsert sequence over the extracted rows. -/
lemma upsert_issues_eq (bid : Int) (t : List IssueRow) (issues : List IssueJson)
    (stc : Dict) :
    upsert_issues bid t issues stc =
      pyUpsertAll keyIssue updIssue t (issues.map (issueToRow bid stc)) := by
  rw [upsert_issues, pyUpsertAll, List.foldl_map]
  rfl

/-- Replaying the same database writes over the already-written tables
changes nothing. -/
lemma apply_sync_idem (e : Env) (cols : List ColRecord) (issues : List IssueJson)
    (t : Tables) :
    apply_sync e cols issues (apply_sync e cols issues t) = apply_sync e cols issues t := by
  have h1 : upsert_columns (upsert_columns t.columns cols) cols =
      upsert_columns t.columns cols :=
    pyUpsertAll_idem keyCol updCol updCol_eq_self t.columns cols
  have h2 : upsert_issues e.boardId
      (upsert_issues e.boardId t.issues issues (status_to_column cols)) issues
      (status_to_column cols) =
      upsert_issues e.boardId t.issues issues (status_to_column cols) := by
    rw [upsert_issues_eq, upsert_issues_eq]
    exact pyUpsertAll_idem keyIssue updIssue updIssue_eq_self _ _
  show Tables.mk (upsert_columns (upsert_columns t.columns cols) cols)
      (upsert_issues e.boardId
        (upsert_issues e.boardId t.issues issues (status_to_column cols)) issues
        (status_to_column cols)) =
    Tables.mk (upsert_columns t.columns cols)
      (upsert_issues e.boardId t.issues issues (status_to_column cols))
  rw [h1, h2]

/-- C3: running the full sync a second time over the tables produced by a
first successful run — with unchanged upstream data — performs exactly the
same requests and leaves the destination tables unchanged: the upserts of
column/status records and of issue records are idempotent on the
destination state. -/
theorem c3_sync_idempotent (fuel : Nat) (e : Env) (up : Upstream) (t t2 : Tables)
    (evs : List Event) (n : Nat)
    (h : mainTrace fuel e up t = some (evs, .ok (t2, n))) :
    mainTrace fuel e up t2 = some (evs, .ok (t2, n)) := by
  unfold mainTrace at h ⊢
  split at h
  · simp at h
  · rename_i u heq1
    split at h
    · simp at h
    · rename_i evs1 cols heq2
      split at h
      · exact Option.noConfusion h
      · simp at h
      · rename_i evs2 issues heq3
        split at h
        · simp at h
        · rename_i u2 heq4
          simp only [Option.some.injEq, Prod.mk.injEq, Except.ok.injEq] at h
          obtain ⟨hevs, ht2, hn⟩ := h
          subst hevs
          subst ht2
          subst hn
          rw [apply_sync_idem]

/-- A fully configured environment using Windows authentication. -/
def envW : Env :=
  { jiraBaseUrl := some "https://jira.example", jiraEmail := some "user@example.com",
    jiraApiToken := some "token", boardId := 2, sqlServer := some "localhost",
    sqlDatabase := none, sqlAuth := none, sqlUsername := none, sqlPassword := none }

/-- A small healthy upstream: one column with one status, and an empty
board-issues list. -/
def upW : Upstream :=
  { config := .ok ⟨[⟨some "To Do", [⟨some 1, some "Open"⟩]⟩]⟩
    issuePage := fun _ => .ok ⟨[], some 0⟩ }

/-- Witness for C3: rerunning the sync over the tables produced by a first
run against `upW` reproduces them exactly. -/
theorem c3_sync_idempotent_witness :
    mainTrace 1 envW upW ⟨[⟨2, some "To Do", "1", some "Open"⟩], []⟩ =
      some ([.httpGet "https://jira.example/rest/agile/1.0/board/2/configuration" none,
             .httpGet "https://jira.example/rest/agile/1.0/board/2/issue" (some (0, 50)),
             .dbConnect, .dbExec "dbo.JiraBoardColumns", .commit],
            .ok (⟨[⟨2, some "To Do", "1", some "Open"⟩], []⟩, 0)) :=
  c3_sync_idempotent 1 envW upW ⟨[], []⟩ ⟨[⟨2, some "To Do", "1", some "Open"⟩], []⟩
    [.httpGet "https://jira.example/rest/agile/1.0/board/2/configuration" none,
     .httpGet "https://jira.example/rest/agile/1.0/board/2/issue" (some (0, 50)),
     .dbConnect, .dbExec "dbo.JiraBoardColumns", .commit] 0 (by rfl)

/-! ## C1: which configuration checks run before which activity -/

/-- The truthiness of the configuration value a given `require_env` call in
the script tests, by setting name (the computed module-level constants are
tested for the base URL, the database name and the auth-dependent values). -/
def envVarTruthy (e : Env) : String → Bool
  | "JIRA_BASE_URL" => pyTruthy (some (jiraBaseUrlVal e))
  | "JIRA_EMAIL" => pyTruthy e.jiraEmail
  | "JIRA_API_TOKEN" => pyTruthy e.jiraApiToken
  | "SQL_SERVER" => pyTruthy e.sqlServer
  | "SQL_DATABASE" => pyTruthy (some (sqlDatabaseVal e))
  | "SQL_USERNAME" => pyTruthy e.sqlUsername
  | "SQL_PASSWORD" => pyTruthy e.sqlPassword
  | _ => true

/-- The first setting, in `main`'s check order, whose `require_env` fails —
`none` when all four up-front checks pass. -/
def upfrontMissingName (e : Env) : Option String :=
  if pyTruthy (some (jiraBaseUrlVal e)) then
    if pyTruthy e.jiraEmail then
      if pyTruthy e.jiraApiToken then
        if pyTruthy e.sqlServer then none
        else some "SQL_SERVER"
      else some "JIRA_API_TOKEN"
    else some "JIRA_EMAIL"
  else some "JIRA_BASE_URL"

lemma require_env_of_true (n : String) (v : Option String) (h : pyTruthy v = true) :
    require_env n v = .ok () := by
  simp [require_env, h]

lemma require_env_of_false (n : String) (v : Option String) (h : pyTruthy v = false) :
    require_env n v = .error (.missingEnv n) := by
  simp [require_env, h]

/-- When all four up-front checks pass, so do `main`'s checks. -/
lemma main_checks_ok (e : Env) (h : upfrontMissingName e = none) :
    main_checks e = .ok () := by
  unfold upfrontMissingName at h
  by_cases h1 : pyTruthy (some (jiraBaseUrlVal e)) <;>
    by_cases h2 : pyTruthy e.jiraEmail <;>
      by_cases h3 : pyTruthy e.jiraApiToken <;>
        by_cases h4 : pyTruthy e.sqlServer <;>
          simp [h1, h2, h3, h4] at h ⊢ <;>
          simp [main_checks, jira_get_checks,
            require_env_of_true _ _ h1, require_env_of_true _ _ h2,
            require_env_of_true _ _ h3, require_env_of_true _ _ h4]

/-- When all four up-front checks pass, `jira_get`'s three checks pass. -/
lemma jira_get_checks_ok (e : Env) (h : upfrontMissingName e = none) :
    jira_get_checks e = .ok () := by
  unfold upfrontMissingName at h
  by_cases h1 : pyTruthy (some (jiraBaseUrlVal e)) <;>
    by_cases h2 : pyTruthy e.jiraEmail <;>
      by_cases h3 : pyTruthy e.jiraApiToken <;>
        by_cases h4 : pyTruthy e.sqlServer <;>
          simp [h1, h2, h3, h4] at h ⊢ <;>
          simp [jira_get_checks,
            require_env_of_true _ _ h1, require_env_of_true _ _ h2,
            require_env_of_true _ _ h3]

/-- When an up-front check fails, `main`'s checks fail with a
`MissingConfiguration` error naming that setting, and that setting's value
is indeed not truthy. -/
lemma main_checks_missing (e : Env) (nm : String)
    (h : upfrontMissingName e = some nm) :
    main_checks e = .error (.missingEnv nm) ∧ envVarTruthy e nm = false := by
  unfold upfrontMissingName at h
  by_cases h1 : pyTruthy (some (jiraBaseUrlVal e))
  · by_cases h2 : pyTruthy e.jiraEmail
    · by_cases h3 : pyTruthy e.jiraApiToken
      · by_cases h4 : pyTruthy e.sqlServer
        · simp [h1, h2, h3, h4] at h
        · simp only [h1, h2, h3, h4, if_true, if_false, Bool.false_eq_true,
            if_neg, Option.some.injEq] at h
          subst h
          refine ⟨?_, by simpa [envVarTruthy] using h4⟩
          simp [main_checks, jira_get_checks,
            require_env_of_true _ _ h1, require_env_of_true _ _ h2,
            require_env_of_true _ _ h3,
            require_env_of_false _ _ (by simpa using h4)]
      · simp only [h1, h2, h3, if_true, Bool.false_eq_true, if_false,
          Option.some.injEq] at h
        subst h
        refine ⟨?_, by simpa [envVarTruthy] using h3⟩
        simp [main_checks, jira_get_checks,
          require_env_of_true _ _ h1, require_env_of_true _ _ h2,
          require_env_of_false _ _ (by simpa using h3)]
    · simp only [h1, h2, if_true, Bool.false_eq_true, if_false,
        Option.some.injEq] at h
      subst h
      refine ⟨?_, by simpa [envVarTruthy] using h2⟩
      simp [main_checks, jira_get_checks,
        require_env_of_true _ _ h1,
        require_env_of_false _ _ (by simpa using h2)]
  · simp only [h1, Bool.false_eq_true, if_false, Option.some.injEq] at h
    subst h
    refine ⟨?_, by simpa [envVarTruthy] using h1⟩
    simp [main_checks, jira_get_checks,
      require_env_of_false _ _ (by simpa using h1)]

/-- Any failure of the connection-time checks is a `MissingConfiguration`
error naming a database setting whose value is not truthy. -/
lemma sql_conn_checks_error (e : Env) (err : PyErr)
    (h : sql_conn_checks e = .error err) :
    ∃ nm, err = .missingEnv nm ∧ envVarTruthy e nm = false := by
  unfold sql_conn_checks at h
  by_cases h1 : pyTruthy e.sqlServer
  · rw [require_env_of_true _ _ h1] at h
    by_cases h2 : pyTruthy (some (sqlDatabaseVal e))
    · rw [require_env_of_true _ _ h2] at h
      by_cases hauth : sqlAuthVal e = "sql"
      · rw [if_pos hauth] at h
        by_cases h3 : pyTruthy e.sqlUsername
        · rw [require_env_of_true _ _ h3] at h
          by_cases h4 : pyTruthy e.sqlPassword
          · rw [require_env_of_true _ _ h4] at h
            simp at h
          · rw [require_env_of_false _ _ (by simpa using h4)] at h
            refine ⟨"SQL_PASSWORD", ?_, by simpa [envVarTruthy] using h4⟩
            simpa using h.symm
        · rw [require_env_of_false _ _ (by simpa using h3)] at h
          refine ⟨"SQL_USERNAME", ?_, by simpa [envVarTruthy] using h3⟩
          simpa using h.symm
      · rw [if_neg hauth] at h
        simp at h
    · rw [require_env_of_false _ _ (by simpa using h2)] at h
      refine ⟨"SQL_DATABASE", ?_, by simpa [envVarTruthy] using h2⟩
      simpa using h.symm
  · rw [require_env_of_false _ _ (by simpa using h1)] at h
    refine ⟨"SQL_SERVER", ?_, by simpa [envVarTruthy] using h1⟩
    simpa using h.symm

/-- The events of `get_board_columns` are HTTP requests only. -/
lemma get_board_columns_events (e : Env) (up : Upstream)
    (evs : List Event) (res : Except PyErr (List ColRecord))
    (h : get_board_columns e up = (evs, res)) :
    ∀ ev ∈ evs, Event.isDb ev = false := by
  unfold get_board_columns at h
  split at h
  · obtain ⟨h1, _⟩ := Prod.mk.injEq .. ▸ h.symm
    intro ev hev
    rw [h1] at hev
    cases hev
  · split at h
    all_goals {
      obtain ⟨h1, _⟩ := Prod.mk.injEq .. ▸ h.symm
      intro ev hev
      rw [h1] at hev
      rcases List.mem_singleton.mp hev with hev2
      rw [hev2]
      rfl
    }

/-- The events of `get_board_issues` are HTTP requests only. -/
lemma get_board_issues_events (e : Env) (up : Upstream) (fuel : Nat)
    (evs : List Event) (res : Except PyErr (List IssueJson))
    (h : get_board_issues e up fuel = some (evs, res)) :
    ∀ ev ∈ evs, Event.isDb ev = false := by
  unfold get_board_issues at h
  split at h
  · obtain ⟨h1, _⟩ := Prod.mk.injEq .. ▸ Option.some.inj h.symm
    intro ev hev
    rw [h1] at hev
    cases hev
  · split at h
    · exact Option.noConfusion h
    all_goals {
      obtain ⟨h1, _⟩ := Prod.mk.injEq .. ▸ Option.some.inj h.symm
      intro ev hev
      rw [h1] at hev
      obtain ⟨q, _, hq⟩ := List.mem_map.mp hev
      rw [← hq]
      rfl
    }

/-- An environment configured for `sql` authentication but with
`SQL_USERNAME` unset; everything `main` checks up front is present. -/
def envC1 : Env :=
  { jiraBaseUrl := some "https://jira.example", jiraEmail := some "user@example.com",
    jiraApiToken := some "token", boardId := 2, sqlServer := some "localhost",
    sqlDatabase := none, sqlAuth := some "sql", sqlUsername := none,
    sqlPassword := some "pw" }

/-- C1 counterexample: under sql authentication mode with `SQL_USERNAME`
unset, the run does fail with a `MissingConfiguration` error naming
`SQL_USERNAME` — but only at connection time, *after* two HTTP requests
(network activity) have already been performed, contradicting "raised
before any network or database activity ... for every required setting,
including the database credentials required under sql authentication
mode". -/
theorem c1_counterexample :
    sqlAuthVal envC1 = "sql" ∧ envC1.sqlUsername = none ∧
    mainTrace 1 envC1 upW ⟨[], []⟩ =
      some ([.httpGet "https://jira.example/rest/agile/1.0/board/2/configuration" none,
             .httpGet "https://jira.example/rest/agile/1.0/board/2/issue" (some (0, 50))],
            .error (.missingEnv "SQL_USERNAME")) ∧
    ([Event.httpGet "https://jira.example/rest/agile/1.0/board/2/configuration" none,
      Event.httpGet "https://jira.example/rest/agile/1.0/board/2/issue" (some (0, 50))].any
        Event.isNetwork) = true :=
  ⟨by decide, rfl, by rfl, by decide⟩

/-- C1 (amended): a missing setting among the four `main` checks up front
(`JIRA_BASE_URL`, `JIRA_EMAIL`, `JIRA_API_TOKEN`, `SQL_SERVER`) aborts the
run with a `MissingConfiguration` error naming it before *any* external
activity (the event trace is empty).  The database name and, under sql
authentication mode, the database credentials are validated only when the
database connection is opened: if the fetches succeed and a connection-time
check fails, the run aborts with a `MissingConfiguration` error naming the
missing database setting before any *database* activity, though the Jira
network requests have already happened by then. -/
theorem c1_amended_config_checks :
    (∀ (e : Env) (up : Upstream) (fuel : Nat) (t : Tables) (nm : String),
       upfrontMissingName e = some nm →
       mainTrace fuel e up t = some ([], .error (.missingEnv nm)) ∧
       envVarTruthy e nm = false) ∧
    (∀ (e : Env) (up : Upstream) (fuel : Nat) (t : Tables)
       (evs1 : List Event) (cols : List ColRecord) (evs2 : List Event)
       (issues : List IssueJson) (err : PyErr),
       upfrontMissingName e = none →
       get_board_columns e up = (evs1, .ok cols) →
       get_board_issues e up fuel = some (evs2, .ok issues) →
       sql_conn_checks e = .error err →
       mainTrace fuel e up t = some (evs1 ++ evs2, .error err) ∧
       (∃ nm, err = .missingEnv nm ∧ envVarTruthy e nm = false) ∧
       ∀ ev ∈ evs1 ++ evs2, Event.isDb ev = false) := by
  constructor
  · intro e up fuel t nm h
    obtain ⟨hmc, htr⟩ := main_checks_missing e nm h
    refine ⟨?_, htr⟩
    unfold mainTrace
    rw [hmc]
  · intro e up fuel t evs1 cols evs2 issues err hup hcols hiss hsql
    refine ⟨?_, sql_conn_checks_error e err hsql, ?_⟩
    · unfold mainTrace
      rw [main_checks_ok e hup, hcols, hiss, hsql]
    · intro ev hev
      rcases List.mem_append.mp hev with h | h
      · exact get_board_columns_events e up evs1 (.ok cols) hcols ev h
      · exact get_board_issues_events e up fuel evs2 (.ok issues) hiss ev h

/-- An environment with `JIRA_EMAIL` unset. -/
def envA : Env :=
  { jiraBaseUrl := some "https://jira.example", jiraEmail := none,
    jiraApiToken := some "token", boardId := 2, sqlServer := some "localhost",
    sqlDatabase := none, sqlAuth := none, sqlUsername := none, sqlPassword := none }

/-- Witness for C1 (amended): with `JIRA_EMAIL` unset, the run fails
immediately, naming `JIRA_EMAIL`, with an empty event trace. -/
theorem c1_amended_config_checks_witness :
    mainTrace 1 envA upW ⟨[], []⟩ = some ([], .error (.missingEnv "JIRA_EMAIL")) ∧
    envVarTruthy envA "JIRA_EMAIL" = false :=
  c1_amended_config_checks.1 envA upW 1 ⟨[], []⟩ "JIRA_EMAIL" (by rfl)
